import Mathlib

/-!
# Folder size report (`foldersize.cpp`)

A shallow embedding of `foldersize.cpp`: the aggregator `get_directory_sizes`,
the comparison `FileInfo::operator<` with the sort and print steps of `main`,
and the progress reporter `loading_animation`.

The program talks to the file system only through `std::filesystem`.  The file
system is embedded as a finite tree of nodes (`Node`); the library calls the
program makes (`status`, `file_size`, `directory_iterator`,
`recursive_directory_iterator`) are functions on that tree which either return
a value or raise an error code, as the throwing overloads used by the source
do.  The `try`/`catch` of `get_directory_sizes` is embedded by returning the
vector built so far together with the error that was caught, if any.
-/

namespace FolderSize

/-! ## Data model -/

/-- Modulus of `uintmax_t` arithmetic (a 64-bit unsigned integer). -/
def UINTMAX_MOD : Nat := 2 ^ 64

/-- The record `struct FileInfo { std::string name; uintmax_t size; }`. -/
structure FileInfo where
  name : String
  size : Nat
  deriving DecidableEq, Repr

/-- The member `FileInfo::operator<`: `return size > other.size;`. -/
def FileInfo.lt (self other : FileInfo) : Bool :=
  decide (self.size > other.size)

/-! ## The file system seen through `std::filesystem` -/

/-- Error codes carried by the `filesystem_error` exceptions of the model. -/
inductive Errc where
  | permission_denied
  | not_a_directory
  | no_such_file
  | io_error
  deriving DecidableEq, Repr

/-- What happens when a directory is opened for iteration. -/
inductive Access where
  /-- opening succeeds and the entries can be listed -/
  | listable
  /-- opening is refused with "permission denied" -/
  | denied
  /-- opening fails with another error (an I/O fault) -/
  | broken
  deriving DecidableEq, Repr

/-- One object of the file system.  A directory keeps its entries, named by
their base names, in directory-iteration order; it keeps them also when it
cannot be opened, so that what a walk does not see is still there. -/
inductive Node where
  /-- regular file with its byte length -/
  | file (size : Nat)
  /-- directory -/
  | dir (access : Access) (entries : List (String × Node))
  /-- symbolic link with the object it points to -/
  | link (target : Node)
  /-- device, fifo or socket -/
  | special
  /-- nothing there: the target of a dangling link, or an entry removed after it was listed -/
  | missing
  /-- regular file that disappears after its status was read: reading its size raises -/
  | vanished
  /-- object whose status cannot be read: the status query raises the given error -/
  | unstatable (code : Errc)
  deriving Repr

/-- A path as the list of its components. -/
abbrev Path := List String

/-- The call `path::filename()`: the last component of the path. -/
def filename (p : Path) : String :=
  p.getLast?.getD ""

/-- The library's `directory_entry`: the path of the entry and the object found there. -/
structure directory_entry where
  path : Path
  node : Node

/-- The part of `fs::file_type` that the program distinguishes. -/
inductive file_type where
  | regular
  | directory
  | other
  | not_found
  deriving DecidableEq, Repr

/-- The throwing overload `fs::status(p)`.  It follows symbolic links, reports a
missing object as `not_found` without raising, and raises when the attributes
cannot be read. -/
def status : Node → Except Errc file_type
  | .file _ => .ok .regular
  | .dir _ _ => .ok .directory
  | .link target => status target
  | .special => .ok .other
  | .missing => .ok .not_found
  | .vanished => .ok .regular
  | .unstatable code => .error code

/-- The call `fs::is_regular_file(entry)`: the entry converts to its path and the
overload taking a path asks `status`. -/
def is_regular_file (entry : directory_entry) : Except Errc Bool :=
  match status entry.node with
  | .ok t => .ok (decide (t = .regular))
  | .error e => .error e

/-- The call `fs::is_directory(entry)`, through `status` as well. -/
def is_directory (entry : directory_entry) : Except Errc Bool :=
  match status entry.node with
  | .ok t => .ok (decide (t = .directory))
  | .error e => .error e

/-- The throwing overload `fs::file_size(p)` on an object; it follows symbolic links. -/
def node_size : Node → Except Errc Nat
  | .file size => .ok size
  | .link target => node_size target
  | .vanished => .error .no_such_file
  | .missing => .error .no_such_file
  | .unstatable code => .error code
  | _ => .error .io_error

/-- The call `fs::file_size(entry)`. -/
def file_size (entry : directory_entry) : Except Errc Nat :=
  node_size entry.node

/-- Opening a path for iteration: symbolic links are followed, and only a
listable directory yields its entries. -/
def open_dir : Node → Except Errc (List (String × Node))
  | .dir .listable entries => .ok entries
  | .dir .denied _ => .error .permission_denied
  | .dir .broken _ => .error .io_error
  | .link target => open_dir target
  | .missing => .error .no_such_file
  | .unstatable code => .error code
  | _ => .error .not_a_directory

/-- The constructor `fs::directory_iterator(path)` with the range-for over it: the
entries of the directory in iteration order, each under the path of the
directory, or the error raised by opening it. -/
def directory_iterator (path : Path) (root : Node) : Except Errc (List directory_entry) :=
  match open_dir root with
  | .ok entries => .ok (entries.map fun c => ⟨path ++ [c.1], c.2⟩)
  | .error e => .error e

/-- The options of `fs::directory_options` that the program could pass. -/
inductive directory_options where
  | none
  | skip_permission_denied
  deriving DecidableEq, Repr

mutual
/-- Increment of `recursive_directory_iterator` past an entry: what the iterator
yields beneath the entry, and the error that ends the iteration there, if any.
Only a real directory is entered (symbolic links are not followed); with
`skip_permission_denied` a directory that refuses to be opened is passed over. -/
def descend (opts : directory_options) (p : Path) : Node → List directory_entry × Option Errc
  | .dir .listable entries => listing opts p entries
  | .dir .denied _ =>
    match opts with
    | .skip_permission_denied => ([], none)
    | .none => ([], some .permission_denied)
  | .dir .broken _ => ([], some .io_error)
  | _ => ([], none)
/-- The entries yielded for an opened directory, in pre-order: each entry, then
what lies beneath it, then the entries after it. -/
def listing (opts : directory_options) (p : Path) :
    List (String × Node) → List directory_entry × Option Errc
  | [] => ([], none)
  | (name, n) :: rest =>
    match descend opts (p ++ [name]) n with
    | (sub, some e) => (⟨p ++ [name], n⟩ :: sub, some e)
    | (sub, none) =>
      match listing opts p rest with
      | (more, stop) => (⟨p ++ [name], n⟩ :: (sub ++ more), stop)
end

/-- The constructor `fs::recursive_directory_iterator(entry, options)` with the
range-for over it: the entries yielded, then the error that ends the iteration,
if any.  The starting path is opened following symbolic links. -/
def recursive_directory_iterator (entry : directory_entry) (opts : directory_options) :
    List directory_entry × Option Errc :=
  match open_dir entry.node with
  | .ok entries => listing opts entry.path entries
  | .error .permission_denied =>
    match opts with
    | .skip_permission_denied => ([], none)
    | .none => ([], some .permission_denied)
  | .error e => ([], some e)

/-! ## `get_directory_sizes` -/

/-- Body of the inner loop (source lines 35-39) over the entries the recursive
iterator yields: `if (fs::is_regular_file(sub_entry)) size += fs::file_size(sub_entry);`
with `size` an `uintmax_t`. -/
def sum_regular : List directory_entry → Nat → Except Errc Nat
  | [], size => .ok size
  | sub_entry :: rest, size =>
    match is_regular_file sub_entry with
    | .error e => .error e
    | .ok true =>
      match file_size sub_entry with
      | .error e => .error e
      | .ok s => sum_regular rest ((size + s) % UINTMAX_MOD)
    | .ok false => sum_regular rest size

/-- Source lines 29-40: the size computed for one immediate child, or the error
raised while computing it.  The inner range-for runs its body on every entry the
recursive iterator yields; an error of the iterator itself is raised by the
increment that follows the last entry yielded, hence after those bodies. -/
def entry_size (entry : directory_entry) : Except Errc Nat :=
  match is_regular_file entry with
  | .error e => .error e
  | .ok true => file_size entry
  | .ok false =>
    match is_directory entry with
    | .error e => .error e
    | .ok true =>
      match recursive_directory_iterator entry .skip_permission_denied with
      | (sub_entries, stop) =>
        match sum_regular sub_entries 0 with
        | .error e => .error e
        | .ok size =>
          match stop with
          | some e => .error e
          | none => .ok size
    | .ok false => .ok 0

/-- What `get_directory_sizes` hands back: the vector `files`, and the error its
`catch` block wrote to `std::cerr`, if one was caught. -/
structure Scan where
  files : List FileInfo
  reported : Option Errc
  deriving DecidableEq, Repr

/-- The outer loop (source lines 28-43) inside the `try` block: every child is
measured and pushed onto `files`; the first error leaves the loop with the
vector as it is. -/
def scan : List directory_entry → List FileInfo → Scan
  | [], files => ⟨files, none⟩
  | entry :: rest, files =>
    match entry_size entry with
    | .error e => ⟨files, some e⟩
    | .ok size => scan rest (files ++ [⟨filename entry.path, size⟩])

/-- The function `get_directory_sizes(path)`, where `root` is the object `path` names. -/
def get_directory_sizes (path : Path) (root : Node) : Scan :=
  match directory_iterator path root with
  | .error e => ⟨[], some e⟩
  | .ok entries => scan entries []


/-! ## The sort and print steps of `main` -/

/-- One insertion step of the sort: `x` goes behind the elements that are
`operator<`-before it and in front of the first element that is not. -/
def ordered_insert (x : FileInfo) : List FileInfo → List FileInfo
  | [] => [x]
  | y :: ys => if y.lt x then y :: ordered_insert x ys else x :: y :: ys

/-- The call `std::sort(files.begin(), files.end())`, which compares with
`FileInfo::operator<` only; embedded as a sort by insertion that keeps entries of
equal size in their order of discovery.  The library leaves the order of such
entries unspecified. -/
def std_sort (files : List FileInfo) : List FileInfo :=
  files.foldr ordered_insert []

/-- The line the print loop writes for one element (source line 113):
`file.name << " <<< " << file.size / (1024 * 1024) << " MB"`. -/
def print_line (file : FileInfo) : String :=
  file.name ++ " <<< " ++ toString (file.size / (1024 * 1024)) ++ " MB"

/-- The print loop of `main` (source lines 111-114): one line per element, in order. -/
def print_files (files : List FileInfo) : List String :=
  files.map print_line

/-- Source lines 107-114 of `main`: sort, then print. -/
def sort_and_print (files : List FileInfo) : List String :=
  print_files (std_sort files)

/-! ## `loading_animation` -/

/-- The array `const char spinner[] = {'|', '/', '-', '\\'}`. -/
def spinner : List Char := ['|', '/', '-', '\\']

/-- The text written on one tick (source line 71). -/
def frame (marker : Char) : String :=
  "\r[계산 중... " ++ String.singleton marker ++ "]"

/-- The text written after the loop (source line 75). -/
def done_message : String := "\r[계산 완료!]   \n"

/-- State of the reporter thread: the local `index`, what it has written to
`std::cout` so far, and whether the function has returned.  The `int index`
starts at 0 and is only ever assigned `(index + 1) % 4`, so it is held as a
natural number: no step can overflow or go negative. -/
structure Reporter where
  index : Nat
  out : List String
  stopped : Bool
  deriving DecidableEq, Repr

/-- The reporter when the thread starts: `int index = 0`, nothing written. -/
def Reporter.start : Reporter := ⟨0, [], false⟩

/-- One poll of `loading_done` by the `while` condition.  When the flag is seen
true the done message is written and the function returns; otherwise the body
runs once: the marker `spinner[index]` is written and `index = (index + 1) % 4`.
A reporter that has returned does nothing more.  The lookup in `spinner` has a
blank as default; the index stays below 4, so the default is never written. -/
def step (loading_done : Bool) (s : Reporter) : Reporter :=
  if s.stopped then s
  else if loading_done then ⟨s.index, s.out ++ [done_message], true⟩
  else ⟨(s.index + 1) % 4, s.out ++ [frame (spinner.getD s.index ' ')], false⟩

/-- The function `loading_animation` run against the successive values its
polls of `loading_done` observe. -/
def loading_animation (polls : List Bool) : Reporter :=
  polls.foldl (fun s b => step b s) Reporter.start

/-! ## Quantities the claims speak about -/

mutual
/-- The byte lengths of all regular files at or beneath a node, whatever the
access to the directories on the way (symbolic links are not followed). -/
def file_sizes : Node → List Nat
  | .file size => [size]
  | .dir _ entries => file_sizes_in entries
  | _ => []
/-- The byte lengths of all regular files at or beneath the given entries. -/
def file_sizes_in : List (String × Node) → List Nat
  | [] => []
  | (_, n) :: rest => file_sizes n ++ file_sizes_in rest
end

mutual
/-- A regular file, or a directory that can be listed and holds, at any depth,
nothing but regular files and such directories. -/
def only_files : Node → Bool
  | .file _ => true
  | .dir .listable entries => only_files_in entries
  | _ => false
/-- Every entry satisfies `only_files`. -/
def only_files_in : List (String × Node) → Bool
  | [] => true
  | (_, n) :: rest => only_files n && only_files_in rest
end

mutual
/-- The byte lengths of the regular files in the readable portion of a node:
directories that cannot be opened are not entered. -/
def readable_sizes : Node → List Nat
  | .file size => [size]
  | .dir .listable entries => readable_sizes_in entries
  | _ => []
/-- The byte lengths of the regular files in the readable portion of the given entries. -/
def readable_sizes_in : List (String × Node) → List Nat
  | [] => []
  | (_, n) :: rest => readable_sizes n ++ readable_sizes_in rest
end

mutual
/-- A tree whose only fault is permission-denied directories: regular files,
special files, removed entries, listable directories of such, and directories
that refuse to be opened (whatever they hold). -/
def walkable : Node → Bool
  | .file _ => true
  | .dir .listable entries => walkable_in entries
  | .dir .denied _ => true
  | .special => true
  | .missing => true
  | _ => false
/-- Every entry satisfies `walkable`. -/
def walkable_in : List (String × Node) → Bool
  | [] => true
  | (_, n) :: rest => walkable n && walkable_in rest
end


/-! ## Example trees -/

/-- The end-to-end example of the specification: `root/` holds `a.txt` of
2,097,152 bytes and the directory `b/` holding `c.bin` of 1,048,576 bytes. -/
def example_root : Node :=
  .dir .listable [("a.txt", .file 2097152), ("b", .dir .listable [("c.bin", .file 1048576)])]

/-- A directory whose first child cannot be stat-ed and whose second child is a
regular file. -/
def stat_fault_root : Node :=
  .dir .listable [("a", .unstatable .io_error), ("b", .file 1)]

/-- A directory whose second child disappears while it is measured; a regular
file comes before it and another after it. -/
def vanishing_root : Node :=
  .dir .listable [("a", .file 3), ("gone", .vanished), ("b", .file 1)]

/-- A directory whose second child is a directory holding, one level down, an
entry that cannot be stat-ed; regular files come before and after it. -/
def deep_fault_root : Node :=
  .dir .listable [("a", .file 3),
    ("c", .dir .listable [("f", .file 7), ("x", .unstatable .io_error)]),
    ("b", .file 1)]

/-- A directory of four sparse files of 4 EiB each: 2^64 bytes in all. -/
def huge_dir : Node :=
  .dir .listable [("w", .file (2 ^ 62)), ("x", .file (2 ^ 62)), ("y", .file (2 ^ 62)),
    ("z", .file (2 ^ 62))]

/-- A directory holding, one level down, a directory that refuses to be opened
and that holds a regular file of 5 bytes. -/
def hidden_dir : Node :=
  .dir .listable [("secret", .dir .denied [("f", .file 5)])]

/-- A directory with a regular file of 7 bytes, a nested directory with a file
of 11 bytes, and one directory that refuses to be opened, holding 5 bytes. -/
def partly_denied_dir : Node :=
  .dir .listable [("f", .file 7), ("sub", .dir .listable [("g", .file 11)]),
    ("secret", .dir .denied [("h", .file 5)])]

/-- A directory with a regular file of 7 bytes and a nested directory that can
be listed but not searched: it yields the name of its entry, and reading the
status of that entry is refused with "permission denied". -/
def stat_denied_dir : Node :=
  .dir .listable [("f", .file 7),
    ("sub", .dir .listable [("x", .unstatable .permission_denied)])]

/-- Four sparse files of 4 EiB each next to a directory that refuses to be opened. -/
def huge_partly_denied_dir : Node :=
  .dir .listable [("w", .file (2 ^ 62)), ("x", .file (2 ^ 62)), ("y", .file (2 ^ 62)),
    ("z", .file (2 ^ 62)), ("secret", .dir .denied [("h", .file 5)])]

/-! ## The outer loop -/

theorem scan_acc (entries : List directory_entry) (files : List FileInfo) :
    scan entries files = ⟨files ++ (scan entries []).files, (scan entries []).reported⟩ := by
  induction entries generalizing files with
  | nil => simp [scan]
  | cons entry rest ih =>
    cases h : entry_size entry with
    | error e => simp [scan, h]
    | ok size =>
      simp only [scan, h]
      rw [ih (files ++ _), ih ([] ++ _)]
      simp

theorem scan_cons_ok {entry : directory_entry} {size : Nat} (rest : List directory_entry)
    (h : entry_size entry = .ok size) :
    scan (entry :: rest) [] =
      ⟨⟨filename entry.path, size⟩ :: (scan rest []).files, (scan rest []).reported⟩ := by
  simp only [scan, h]
  rw [scan_acc]
  simp

theorem scan_cons_error {entry : directory_entry} {e : Errc} (rest : List directory_entry)
    (h : entry_size entry = .error e) :
    scan (entry :: rest) [] = ⟨[], some e⟩ := by
  simp only [scan, h]

theorem scan_length_of_quiet (entries : List directory_entry)
    (h : (scan entries []).reported = none) :
    (scan entries []).files.length = entries.length := by
  induction entries with
  | nil => simp [scan]
  | cons entry rest ih =>
    cases hs : entry_size entry with
    | error e => simp [scan_cons_error rest hs] at h
    | ok size =>
      simp only [scan_cons_ok rest hs] at h ⊢
      simp [ih h]

theorem scan_get (entries : List directory_entry) (i : Nat) (f : FileInfo)
    (h : (scan entries []).files[i]? = some f) :
    ∃ entry, entries[i]? = some entry ∧ entry_size entry = .ok f.size ∧
      f.name = filename entry.path := by
  induction entries generalizing i with
  | nil => simp [scan] at h
  | cons entry rest ih =>
    cases hs : entry_size entry with
    | error e => simp [scan_cons_error rest hs] at h
    | ok size =>
      simp only [scan_cons_ok rest hs] at h
      cases i with
      | zero =>
        simp at h
        subst h
        exact ⟨entry, by simp, hs, rfl⟩
      | succ j =>
        simp at h
        simpa using ih j h

theorem scan_get_of_lt (entries : List directory_entry) (i : Nat) (entry : directory_entry)
    (he : entries[i]? = some entry) (hi : i < (scan entries []).files.length) :
    ∃ size, entry_size entry = .ok size ∧
      (scan entries []).files[i]? = some ⟨filename entry.path, size⟩ := by
  obtain ⟨f, hf⟩ : ∃ f, (scan entries []).files[i]? = some f :=
    ⟨_, List.getElem?_eq_getElem hi⟩
  obtain ⟨entry', he', hs, hn⟩ := scan_get entries i f hf
  rw [he] at he'
  cases he'
  refine ⟨f.size, hs, ?_⟩
  rw [hf, ← hn]


theorem scan_reaches (entries : List directory_entry) (k : Nat) (hk : k ≤ entries.length)
    (hbefore : ∀ j entry, j < k → entries[j]? = some entry →
      ∃ size, entry_size entry = .ok size) :
    k ≤ (scan entries []).files.length ∧ (scan (entries.take k) []).reported = none ∧
      (scan (entries.take k) []).files = (scan entries []).files.take k := by
  induction entries generalizing k with
  | nil => simp at hk; subst hk; simp [scan]
  | cons entry rest ih =>
    cases k with
    | zero => simp [scan]
    | succ j =>
      obtain ⟨size, hs⟩ := hbefore 0 entry (by omega) (by simp)
      have hrest := ih j (by simpa using hk) (fun i x hi hx =>
        hbefore (i + 1) x (by omega) (by simpa using hx))
      rw [List.take_succ_cons, scan_cons_ok _ hs, scan_cons_ok _ hs]
      simp only [List.length_cons, List.take_succ_cons]
      exact ⟨by omega, hrest.2.1, by rw [hrest.2.2]⟩

theorem scan_first_error (entries : List directory_entry) (k : Nat) (entry : directory_entry)
    (e : Errc) (hk : entries[k]? = some entry) (herr : entry_size entry = .error e)
    (hbefore : ∀ j x, j < k → entries[j]? = some x → ∃ size, entry_size x = .ok size) :
    scan entries [] = ⟨(scan (entries.take k) []).files, some e⟩ ∧
      (scan (entries.take k) []).reported = none ∧
      (scan (entries.take k) []).files.length = k := by
  induction entries generalizing k with
  | nil => simp at hk
  | cons x rest ih =>
    cases k with
    | zero =>
      simp at hk
      subst hk
      rw [scan_cons_error rest herr]
      simp [scan]
    | succ j =>
      obtain ⟨size, hs⟩ := hbefore 0 x (by omega) (by simp)
      have hrest := ih j (by simpa using hk) (fun i y hi hy =>
        hbefore (i + 1) y (by omega) (by simpa using hy))
      rw [List.take_succ_cons, scan_cons_ok _ hs, scan_cons_ok _ hs, hrest.1]
      simp [hrest.2.1, hrest.2.2]

theorem filename_child (p : Path) (name : String) : filename (p ++ [name]) = name := by
  simp [filename]

theorem get_directory_sizes_of_open (path : Path) (root : Node) (cs : List (String × Node))
    (h : open_dir root = .ok cs) :
    get_directory_sizes path root = scan (cs.map fun c => ⟨path ++ [c.1], c.2⟩) [] := by
  simp [get_directory_sizes, directory_iterator, h]

theorem get_directory_sizes_of_error (path : Path) (root : Node) (e : Errc)
    (h : open_dir root = .error e) :
    get_directory_sizes path root = ⟨[], some e⟩ := by
  simp [get_directory_sizes, directory_iterator, h]

/-! ## The inner loop -/

theorem sum_regular_append (a b : List directory_entry) (size : Nat) :
    sum_regular (a ++ b) size =
      match sum_regular a size with
      | .ok s => sum_regular b s
      | .error e => .error e := by
  induction a generalizing size with
  | nil => simp [sum_regular]
  | cons x rest ih =>
    simp only [List.cons_append, sum_regular]
    cases is_regular_file x with
    | error e => rfl
    | ok r =>
      cases r with
      | false => exact ih size
      | true =>
        cases file_size x with
        | error e => rfl
        | ok s => exact ih _

theorem sum_regular_cons_regular (x : directory_entry) (rest : List directory_entry)
    (size s : Nat) (hr : status x.node = .ok .regular) (hs : node_size x.node = .ok s) :
    sum_regular (x :: rest) size = sum_regular rest ((size + s) % UINTMAX_MOD) := by
  simp [sum_regular, is_regular_file, file_size, hr, hs]

theorem sum_regular_cons_skip (x : directory_entry) (rest : List directory_entry)
    (size : Nat) (t : file_type) (hr : status x.node = .ok t) (ht : t ≠ .regular) :
    sum_regular (x :: rest) size = sum_regular rest size := by
  simp [sum_regular, is_regular_file, hr, ht]

theorem add_mod_uintmax (size s t : Nat) :
    ((size + s) % UINTMAX_MOD + t) % UINTMAX_MOD = (size + (s + t)) % UINTMAX_MOD := by
  rw [Nat.add_mod, Nat.mod_mod, ← Nat.add_mod, Nat.add_assoc]

theorem listing_walkable (p : Path) : ∀ (entries : List (String × Node)),
    walkable_in entries = true →
    (listing .skip_permission_denied p entries).2 = none ∧
    ∀ size, size < UINTMAX_MOD →
      sum_regular (listing .skip_permission_denied p entries).1 size =
        .ok ((size + (readable_sizes_in entries).sum) % UINTMAX_MOD)
  | [], _ => by
    refine ⟨by simp [listing], fun size hs => ?_⟩
    simp [listing, sum_regular, readable_sizes_in, Nat.mod_eq_of_lt hs]
  | (name, .file s) :: rest, h => by
    simp only [walkable_in, walkable, Bool.true_and] at h
    obtain ⟨h1, h2⟩ := listing_walkable p rest h
    refine ⟨by simp [listing, descend, h1], fun size _ => ?_⟩
    simp only [listing, descend, List.nil_append]
    rw [sum_regular_cons_regular ⟨p ++ [name], .file s⟩ _ size s rfl rfl, h2 _ (Nat.mod_lt _ (by decide))]
    simp [readable_sizes_in, readable_sizes, add_mod_uintmax, Nat.add_assoc]
  | (name, .dir .listable sub) :: rest, h => by
    simp only [walkable_in, walkable, Bool.and_eq_true] at h
    obtain ⟨s1, s2⟩ := listing_walkable (p ++ [name]) sub h.1
    obtain ⟨h1, h2⟩ := listing_walkable p rest h.2
    have hd : descend .skip_permission_denied (p ++ [name]) (.dir .listable sub) =
        ((listing .skip_permission_denied (p ++ [name]) sub).1, none) := by
      rw [descend, ← s1]
    refine ⟨by simp [listing, hd, h1], fun size hsz => ?_⟩
    simp only [listing, hd]
    rw [sum_regular_cons_skip ⟨p ++ [name], .dir .listable sub⟩ _ size .directory rfl
      (by decide), sum_regular_append,
      s2 size hsz]
    simp only
    rw [h2 _ (Nat.mod_lt _ (by decide))]
    simp [readable_sizes_in, readable_sizes, add_mod_uintmax, Nat.add_assoc]
  | (name, .dir .denied sub) :: rest, h => by
    simp only [walkable_in, walkable, Bool.true_and] at h
    obtain ⟨h1, h2⟩ := listing_walkable p rest h
    refine ⟨by simp [listing, descend, h1], fun size hsz => ?_⟩
    simp only [listing, descend, List.nil_append]
    rw [sum_regular_cons_skip ⟨p ++ [name], .dir .denied sub⟩ _ size .directory rfl
      (by decide), h2 size hsz]
    simp [readable_sizes_in, readable_sizes]
  | (name, .special) :: rest, h => by
    simp only [walkable_in, walkable, Bool.true_and] at h
    obtain ⟨h1, h2⟩ := listing_walkable p rest h
    refine ⟨by simp [listing, descend, h1], fun size hsz => ?_⟩
    simp only [listing, descend, List.nil_append]
    rw [sum_regular_cons_skip ⟨p ++ [name], .special⟩ _ size .other rfl (by decide),
      h2 size hsz]
    simp [readable_sizes_in, readable_sizes]
  | (name, .missing) :: rest, h => by
    simp only [walkable_in, walkable, Bool.true_and] at h
    obtain ⟨h1, h2⟩ := listing_walkable p rest h
    refine ⟨by simp [listing, descend, h1], fun size hsz => ?_⟩
    simp only [listing, descend, List.nil_append]
    rw [sum_regular_cons_skip ⟨p ++ [name], .missing⟩ _ size .not_found rfl (by decide),
      h2 size hsz]
    simp [readable_sizes_in, readable_sizes]
  | (name, .dir .broken sub) :: rest, h => by simp [walkable_in, walkable] at h
  | (name, .link t) :: rest, h => by simp [walkable_in, walkable] at h
  | (name, .vanished) :: rest, h => by simp [walkable_in, walkable] at h
  | (name, .unstatable _) :: rest, h => by simp [walkable_in, walkable] at h

theorem entry_size_walkable_dir (p : Path) (access : Access) (entries : List (String × Node))
    (h : walkable (.dir access entries) = true) :
    entry_size ⟨p, .dir access entries⟩ =
      .ok ((readable_sizes (.dir access entries)).sum % UINTMAX_MOD) := by
  cases access with
  | listable =>
    simp only [walkable] at h
    obtain ⟨h1, h2⟩ := listing_walkable p entries h
    have h3 := h2 0 (by decide)
    simp only [Nat.zero_add] at h3
    simp only [entry_size, is_regular_file, is_directory, status,
      recursive_directory_iterator, open_dir, readable_sizes]
    simp [h3, h1]
  | denied =>
    simp [entry_size, is_regular_file, is_directory, status, recursive_directory_iterator,
      open_dir, readable_sizes, sum_regular]
  | broken => simp [walkable] at h

theorem only_files_walkable : ∀ (entries : List (String × Node)),
    only_files_in entries = true →
    walkable_in entries = true ∧ readable_sizes_in entries = file_sizes_in entries
  | [], _ => by simp [walkable_in, readable_sizes_in, file_sizes_in]
  | (_, .file s) :: rest, h => by
    simp only [only_files_in, only_files, Bool.true_and] at h
    obtain ⟨h1, h2⟩ := only_files_walkable rest h
    simp [walkable_in, walkable, readable_sizes_in, readable_sizes, file_sizes_in, file_sizes,
      h1, h2]
  | (_, .dir .listable sub) :: rest, h => by
    simp only [only_files_in, only_files, Bool.and_eq_true] at h
    obtain ⟨s1, s2⟩ := only_files_walkable sub h.1
    obtain ⟨h1, h2⟩ := only_files_walkable rest h.2
    simp [walkable_in, walkable, readable_sizes_in, readable_sizes, file_sizes_in, file_sizes,
      h1, h2, s1, s2]
  | (_, .dir .denied _) :: _, h => by simp [only_files_in, only_files] at h
  | (_, .dir .broken _) :: _, h => by simp [only_files_in, only_files] at h
  | (_, .link _) :: _, h => by simp [only_files_in, only_files] at h
  | (_, .special) :: _, h => by simp [only_files_in, only_files] at h
  | (_, .missing) :: _, h => by simp [only_files_in, only_files] at h
  | (_, .vanished) :: _, h => by simp [only_files_in, only_files] at h
  | (_, .unstatable _) :: _, h => by simp [only_files_in, only_files] at h

theorem entry_size_only_files (p : Path) (access : Access) (entries : List (String × Node))
    (h : only_files (.dir access entries) = true) :
    entry_size ⟨p, .dir access entries⟩ =
      .ok ((file_sizes (.dir access entries)).sum % UINTMAX_MOD) := by
  cases access with
  | listable =>
    simp only [only_files] at h
    obtain ⟨h1, h2⟩ := only_files_walkable entries h
    rw [entry_size_walkable_dir p .listable entries (by simpa [walkable] using h1)]
    simp [readable_sizes, file_sizes, h2]
  | denied => simp [only_files] at h
  | broken => simp [only_files] at h

theorem entry_size_link (p : Path) (target : Node) :
    entry_size ⟨p, .link target⟩ = entry_size ⟨p, target⟩ := by
  simp [entry_size, is_regular_file, is_directory, status, file_size, node_size,
    recursive_directory_iterator, open_dir]

theorem entry_size_leaf (p : Path) (n : Node)
    (h : status n = .ok .other ∨ status n = .ok .not_found) :
    entry_size ⟨p, n⟩ = .ok 0 := by
  rcases h with h | h <;> simp [entry_size, is_regular_file, is_directory, h]

/-! ## From the loop to `get_directory_sizes` -/

theorem entries_get (path : Path) (cs : List (String × Node)) (i : Nat) (name : String)
    (n : Node) (h : cs[i]? = some (name, n)) :
    (cs.map fun c => (⟨path ++ [c.1], c.2⟩ : directory_entry))[i]? =
      some ⟨path ++ [name], n⟩ := by
  simp [List.getElem?_map, h]

/-- The entry of a child whose measurement succeeds: it is the only thing position
`i` of the result can hold, and it is there when no error is reported, or when no
child before it raised one. -/
theorem child_entry (path : Path) (root : Node) (cs : List (String × Node)) (i : Nat)
    (name : String) (n : Node) (size : Nat) (hopen : open_dir root = .ok cs)
    (hchild : cs[i]? = some (name, n)) (hsize : entry_size ⟨path ++ [name], n⟩ = .ok size) :
    (∀ f, (get_directory_sizes path root).files[i]? = some f → f = ⟨name, size⟩) ∧
    ((get_directory_sizes path root).reported = none →
      (get_directory_sizes path root).files[i]? = some ⟨name, size⟩) ∧
    ((∀ j c, j < i → cs[j]? = some c → ∃ s, entry_size ⟨path ++ [c.1], c.2⟩ = .ok s) →
      (get_directory_sizes path root).files[i]? = some ⟨name, size⟩) := by
  rw [get_directory_sizes_of_open path root cs hopen]
  have he := entries_get path cs i name n hchild
  have hlt : i < cs.length := by
    rcases Nat.lt_or_ge i cs.length with h | h
    · exact h
    · rw [List.getElem?_eq_none h] at hchild; cases hchild
  have key : i < (scan (cs.map fun c => (⟨path ++ [c.1], c.2⟩ : directory_entry)) []).files.length →
      (scan (cs.map fun c => (⟨path ++ [c.1], c.2⟩ : directory_entry)) []).files[i]? =
        some ⟨name, size⟩ := by
    intro hi
    obtain ⟨s, hs, hf⟩ := scan_get_of_lt _ i _ he hi
    rw [hsize] at hs
    cases hs
    rw [hf, filename_child]
  refine ⟨fun f hf => ?_, fun hq => key ?_, fun hb => key ?_⟩
  · have hi : i < (scan (cs.map fun c => (⟨path ++ [c.1], c.2⟩ : directory_entry)) []).files.length := by
      rcases Nat.lt_or_ge i
        (scan (cs.map fun c => (⟨path ++ [c.1], c.2⟩ : directory_entry)) []).files.length with h | h
      · exact h
      · rw [List.getElem?_eq_none h] at hf; cases hf
    rw [key hi] at hf
    cases hf
    rfl
  · rw [scan_length_of_quiet _ hq]
    simpa using hlt
  · have hr := (scan_reaches (cs.map fun c => (⟨path ++ [c.1], c.2⟩ : directory_entry)) (i + 1)
      (by simpa using hlt) (fun j entry hj hje => by
        rcases Nat.lt_or_ge j i with hji | hji
        · rw [List.getElem?_map] at hje
          cases hc : cs[j]? with
          | none => rw [hc] at hje; cases hje
          | some c =>
            rw [hc] at hje
            simp only [Option.map_some', Option.some.injEq] at hje
            subst hje
            exact hb j c hji hc
        · have : j = i := by omega
          subst this
          rw [he] at hje
          cases hje
          exact ⟨size, hsize⟩)).1
    omega

theorem scan_names (path : Path) (cs : List (String × Node)) :
    (scan (cs.map fun c => (⟨path ++ [c.1], c.2⟩ : directory_entry)) []).files.map
        FileInfo.name =
      (cs.map Prod.fst).take
        (scan (cs.map fun c => (⟨path ++ [c.1], c.2⟩ : directory_entry)) []).files.length := by
  induction cs with
  | nil => simp [scan]
  | cons c rest ih =>
    simp only [List.map_cons]
    cases hs : entry_size (⟨path ++ [c.1], c.2⟩ : directory_entry) with
    | error e => simp [scan_cons_error _ hs]
    | ok size =>
      rw [scan_cons_ok _ hs]
      simp [filename_child, ih]

theorem names_take (path : Path) (root : Node) (cs : List (String × Node))
    (hopen : open_dir root = .ok cs) :
    (get_directory_sizes path root).files.map FileInfo.name =
      (cs.map Prod.fst).take (get_directory_sizes path root).files.length := by
  rw [get_directory_sizes_of_open path root cs hopen]
  exact scan_names path cs

/-! ## The sort -/

theorem ordered_insert_perm (x : FileInfo) (l : List FileInfo) :
    (ordered_insert x l).Perm (x :: l) := by
  induction l with
  | nil => simp [ordered_insert]
  | cons y ys ih =>
    simp only [ordered_insert]
    split
    · exact (List.Perm.cons y ih).trans (List.Perm.swap x y ys)
    · exact List.Perm.refl _

theorem std_sort_perm (files : List FileInfo) : (std_sort files).Perm files := by
  induction files with
  | nil => simp [std_sort]
  | cons x rest ih =>
    have h : std_sort (x :: rest) = ordered_insert x (std_sort rest) := rfl
    rw [h]
    exact (ordered_insert_perm x _).trans (List.Perm.cons x ih)

theorem ordered_insert_descending (x : FileInfo) (l : List FileInfo)
    (h : l.Pairwise fun a b => b.size ≤ a.size) :
    (ordered_insert x l).Pairwise fun a b => b.size ≤ a.size := by
  induction l with
  | nil => simp [ordered_insert]
  | cons y ys ih =>
    rw [List.pairwise_cons] at h
    simp only [ordered_insert]
    split
    · rename_i hlt
      simp only [FileInfo.lt, gt_iff_lt, decide_eq_true_eq] at hlt
      refine List.pairwise_cons.2 ⟨fun z hz => ?_, ih h.2⟩
      rcases List.mem_cons.1 ((ordered_insert_perm x ys).mem_iff.1 hz) with rfl | hz
      · omega
      · exact h.1 z hz
    · rename_i hlt
      simp only [FileInfo.lt, gt_iff_lt, decide_eq_true_eq, Nat.not_lt] at hlt
      refine List.pairwise_cons.2 ⟨fun z hz => ?_, List.pairwise_cons.2 h⟩
      rcases List.mem_cons.1 hz with rfl | hz
      · exact hlt
      · have := h.1 z hz
        omega

theorem std_sort_pairwise (files : List FileInfo) :
    (std_sort files).Pairwise fun a b => b.size ≤ a.size := by
  induction files with
  | nil => simp [std_sort]
  | cons x rest ih => exact ordered_insert_descending x _ ih

theorem pairwise_get {l : List FileInfo} (h : l.Pairwise fun a b => b.size ≤ a.size)
    (i j : Nat) (a b : FileInfo) (hij : i < j) (ha : l[i]? = some a) (hb : l[j]? = some b) :
    b.size ≤ a.size := by
  induction l generalizing i j with
  | nil => simp at ha
  | cons x rest ih =>
    rw [List.pairwise_cons] at h
    cases j with
    | zero => omega
    | succ j =>
      simp only [List.getElem?_cons_succ] at hb
      cases i with
      | zero =>
        simp only [List.getElem?_cons_zero, Option.some.injEq] at ha
        subst ha
        exact h.1 b (List.getElem?_mem hb)
      | succ i =>
        simp only [List.getElem?_cons_succ] at ha
        exact ih h.2 i j (by omega) ha hb

/-! ## The reporter -/

theorem step_stopped (b : Bool) (s : Reporter) (h : s.stopped = true) : step b s = s := by
  simp [step, h]

theorem foldl_step_stopped (polls : List Bool) (s : Reporter) (h : s.stopped = true) :
    polls.foldl (fun s b => step b s) s = s := by
  induction polls with
  | nil => rfl
  | cons b rest ih => rw [List.foldl_cons, step_stopped b s h, ih]

theorem step_index_lt (b : Bool) (s : Reporter) (h : s.index < 4) : (step b s).index < 4 := by
  unfold step
  split
  · exact h
  · split
    · exact h
    · exact Nat.mod_lt _ (by decide)

theorem foldl_step_index_lt (polls : List Bool) (s : Reporter) (h : s.index < 4) :
    (polls.foldl (fun s b => step b s) s).index < 4 := by
  induction polls generalizing s with
  | nil => exact h
  | cons b rest ih => exact ih _ (step_index_lt b s h)

theorem ticks (k : Nat) :
    loading_animation (List.replicate k false) =
      ⟨k % 4, (List.range k).map (fun i => frame (spinner.getD (i % 4) ' ')), false⟩ := by
  induction k with
  | zero => rfl
  | succ k ih =>
    have h : loading_animation (List.replicate (k + 1) false) =
        step false (loading_animation (List.replicate k false)) := by
      simp [loading_animation, List.replicate_succ', List.foldl_append]
    rw [h, ih]
    simp [step, List.range_succ, Nat.add_mod]

/-! ## The claims -/

/-- C1 (counterexample).  In a directory with two children whose first child
cannot be stat-ed, `get_directory_sizes` returns no entry at all: the result
does not have one entry per immediate child. -/
theorem cardinality_fails_on_error :
    open_dir stat_fault_root = .ok [("a", .unstatable .io_error), ("b", .file 1)] ∧
    get_directory_sizes ["root"] stat_fault_root = ⟨[], some .io_error⟩ ∧
    (get_directory_sizes ["root"] stat_fault_root).files.length ≠
      [("a", Node.unstatable .io_error), ("b", Node.file 1)].length :=
  ⟨rfl, by decide, by decide⟩

/-- C1 (amended).  For every directory whose walk raises no error,
`get_directory_sizes` returns exactly one entry per immediate child: the result
has as many entries as the directory has children, and the i-th entry carries
the base name of the i-th child in directory-iteration order. -/
theorem one_entry_per_child (path : Path) (root : Node) (cs : List (String × Node))
    (hopen : open_dir root = .ok cs)
    (hquiet : (get_directory_sizes path root).reported = none) :
    (get_directory_sizes path root).files.length = cs.length ∧
    (get_directory_sizes path root).files.map FileInfo.name = cs.map Prod.fst ∧
    ∀ (i : Nat) (c : String × Node), cs[i]? = some c →
      ((get_directory_sizes path root).files[i]?).map FileInfo.name =
        some (filename (path ++ [c.1])) := by
  have hlen : (get_directory_sizes path root).files.length = cs.length := by
    rw [get_directory_sizes_of_open path root cs hopen] at hquiet ⊢
    rw [scan_length_of_quiet _ hquiet]
    simp
  have hnames : (get_directory_sizes path root).files.map FileInfo.name = cs.map Prod.fst := by
    rw [names_take path root cs hopen, hlen]
    simp
  refine ⟨hlen, hnames, fun i c hc => ?_⟩
  have h := congrArg (fun l => l[i]?) hnames
  simp only [List.getElem?_map, hc, Option.map_some'] at h
  rw [h, filename_child]

/-- C1 (witness): the example tree of the specification. -/
theorem one_entry_per_child_witness :
    (get_directory_sizes ["root"] example_root).files.length = 2 ∧
    (get_directory_sizes ["root"] example_root).files.map FileInfo.name = ["a.txt", "b"] :=
  ⟨(one_entry_per_child ["root"] example_root
      [("a.txt", .file 2097152), ("b", .dir .listable [("c.bin", .file 1048576)])]
      rfl (by decide)).1,
   (one_entry_per_child ["root"] example_root
      [("a.txt", .file 2097152), ("b", .dir .listable [("c.bin", .file 1048576)])]
      rfl (by decide)).2.1⟩

/-- C2.  For an immediate child that is a regular file of byte length `L`, the
entry `get_directory_sizes` produces for that child (position `i` of the result,
for the i-th child) carries the child's name and size exactly `L`; the entry is
there whenever no error is reported, and whenever no child before it raised one. -/
theorem regular_file_entry_size (path : Path) (root : Node) (cs : List (String × Node))
    (i : Nat) (name : String) (L : Nat) (hopen : open_dir root = .ok cs)
    (hchild : cs[i]? = some (name, .file L)) :
    (∀ f, (get_directory_sizes path root).files[i]? = some f → f = ⟨name, L⟩) ∧
    ((get_directory_sizes path root).reported = none →
      (get_directory_sizes path root).files[i]? = some ⟨name, L⟩) ∧
    ((∀ j c, j < i → cs[j]? = some c → ∃ s, entry_size ⟨path ++ [c.1], c.2⟩ = .ok s) →
      (get_directory_sizes path root).files[i]? = some ⟨name, L⟩) :=
  child_entry path root cs i name (.file L) L hopen hchild rfl

/-- C2 (witness): the file `a.txt` of the example tree. -/
theorem regular_file_entry_size_witness :
    (get_directory_sizes ["root"] example_root).files[0]? = some ⟨"a.txt", 2097152⟩ :=
  (regular_file_entry_size ["root"] example_root
    [("a.txt", .file 2097152), ("b", .dir .listable [("c.bin", .file 1048576)])]
    0 "a.txt" 2097152 rfl rfl).2.1 (by decide)

/-- C3 (counterexample).  A child directory holding four regular files of 2^62
bytes each gets size 0, not the sum 2^64 of their sizes: the sum is accumulated
in an `uintmax_t` and wraps.  And a child directory holding, one level down, a
regular file of 5 bytes inside a directory that refuses to be opened gets size
0, not 5. -/
theorem directory_sum_fails :
    (get_directory_sizes ["root"] (.dir .listable [("c", huge_dir)]) = ⟨[⟨"c", 0⟩], none⟩ ∧
      (file_sizes huge_dir).sum = 2 ^ 64) ∧
    (get_directory_sizes ["root"] (.dir .listable [("c", hidden_dir)]) = ⟨[⟨"c", 0⟩], none⟩ ∧
      file_sizes hidden_dir = [5]) :=
  ⟨⟨by decide, by decide⟩, ⟨by decide, by decide⟩⟩

/-- C3 (amended).  For an immediate child that is a directory holding only
regular files of sizes s1..sn, directly or nested arbitrarily deep in
directories that can all be opened, the entry produced for that child has size
(s1 + ... + sn) mod 2^64: the sum itself whenever it is below 2^64, and 0 when the
child holds no regular file.  The entry is there whenever no error is reported. -/
theorem directory_entry_size (path : Path) (root : Node) (cs : List (String × Node))
    (i : Nat) (name : String) (access : Access) (entries : List (String × Node))
    (hopen : open_dir root = .ok cs)
    (hchild : cs[i]? = some (name, .dir access entries))
    (hfiles : only_files (.dir access entries) = true) :
    (∀ f, (get_directory_sizes path root).files[i]? = some f →
      f = ⟨name, (file_sizes (.dir access entries)).sum % UINTMAX_MOD⟩) ∧
    ((get_directory_sizes path root).reported = none →
      (get_directory_sizes path root).files[i]? =
        some ⟨name, (file_sizes (.dir access entries)).sum % UINTMAX_MOD⟩) ∧
    ((file_sizes (.dir access entries)).sum < UINTMAX_MOD →
      ∀ f, (get_directory_sizes path root).files[i]? = some f →
        f = ⟨name, (file_sizes (.dir access entries)).sum⟩) ∧
    (file_sizes (.dir access entries) = [] →
      ∀ f, (get_directory_sizes path root).files[i]? = some f → f = ⟨name, 0⟩) := by
  have h := child_entry path root cs i name (.dir access entries) _ hopen hchild
    (entry_size_only_files (path ++ [name]) access entries hfiles)
  refine ⟨h.1, h.2.1, fun hlt f hf => ?_, fun hnil f hf => ?_⟩
  · rw [h.1 f hf, Nat.mod_eq_of_lt hlt]
  · rw [h.1 f hf, hnil]
    rfl

/-- C3 (witness): the directory `b` of the example tree. -/
theorem directory_entry_size_witness :
    (get_directory_sizes ["root"] example_root).files[1]? = some ⟨"b", 1048576⟩ :=
  (directory_entry_size ["root"] example_root
    [("a.txt", .file 2097152), ("b", .dir .listable [("c.bin", .file 1048576)])]
    1 "b" .listable [("c.bin", .file 1048576)] rfl rfl rfl).2.1 (by decide)

/-- C4.  The sort step of `main` yields a rearrangement of the list it is given,
in descending size order: for all positions `i < j` of the sorted list the
element at `i` is at least as large as the element at `j`.  The same holds of
any list that is sorted with respect to `FileInfo::operator<`, which is all the
library promises of `std::sort`. -/
theorem std_sort_descending (files : List FileInfo) :
    (std_sort files).Perm files ∧
    (∀ (i j : Nat) (a b : FileInfo), i < j → (std_sort files)[i]? = some a →
      (std_sort files)[j]? = some b → a.size ≥ b.size) ∧
    (std_sort files).Pairwise (fun a b => FileInfo.lt b a = false) ∧
    ∀ out : List FileInfo, out.Pairwise (fun a b => FileInfo.lt b a = false) →
      ∀ (i j : Nat) (a b : FileInfo), i < j → out[i]? = some a → out[j]? = some b →
        a.size ≥ b.size :=
  ⟨std_sort_perm files,
    fun i j a b hij ha hb => pairwise_get (std_sort_pairwise files) i j a b hij ha hb,
    (std_sort_pairwise files).imp (fun h => by simpa [FileInfo.lt] using h),
    fun _ hout i j a b hij ha hb =>
      pairwise_get (hout.imp (fun h => by simpa [FileInfo.lt] using h)) i j a b hij ha hb⟩

/-- C4 (witness): three entries, the smallest first; after the sort the entry of
20 bytes is at position 1 and the entry of 3 bytes at position 2. -/
theorem std_sort_descending_witness :
    (std_sort [⟨"s", 3⟩, ⟨"l", 500⟩, ⟨"m", 20⟩])[1]? = some ⟨"m", 20⟩ ∧
    (std_sort [⟨"s", 3⟩, ⟨"l", 500⟩, ⟨"m", 20⟩])[2]? = some ⟨"s", 3⟩ ∧
    (⟨"m", 20⟩ : FileInfo).size ≥ (⟨"s", 3⟩ : FileInfo).size :=
  ⟨by decide, by decide,
    (std_sort_descending [⟨"s", 3⟩, ⟨"l", 500⟩, ⟨"m", 20⟩]).2.1 1 2 ⟨"m", 20⟩ ⟨"s", 3⟩
      (by decide) (by decide) (by decide)⟩

/-- C5 (counterexample).  The second child disappears while it is measured: the
error is caught, but the walk does not continue.  The regular file `b`, iterated
after the failing child and measurable on its own, gets no entry. -/
theorem walk_stops_at_error :
    open_dir vanishing_root = .ok [("a", .file 3), ("gone", .vanished), ("b", .file 1)] ∧
    get_directory_sizes ["root"] vanishing_root = ⟨[⟨"a", 3⟩], some .no_such_file⟩ ∧
    entry_size ⟨["root", "b"], .file 1⟩ = .ok 1 ∧
    (get_directory_sizes ["root"] vanishing_root).files[2]? = none :=
  ⟨rfl, by decide, rfl, by decide⟩

/-- C5 (amended).  When enumerating or stat-ing a child or descendant raises an
error, `get_directory_sizes` catches it, reports it and ends the walk there: if
the child at position `k` (from 0) is the first whose measurement raises, the
error it raises is the one reported, and the result holds exactly the entries of
the `k` children iterated before it, in order, each under its base name and with
the size measured for it; the failing child and every child iterated after it
get no entry. -/
theorem error_ends_walk (path : Path) (root : Node) (cs : List (String × Node)) (k : Nat)
    (name : String) (n : Node) (e : Errc) (hopen : open_dir root = .ok cs)
    (hchild : cs[k]? = some (name, n))
    (herr : entry_size ⟨path ++ [name], n⟩ = .error e)
    (hbefore : ∀ j c, j < k → cs[j]? = some c →
      ∃ s, entry_size ⟨path ++ [c.1], c.2⟩ = .ok s) :
    (get_directory_sizes path root).reported = some e ∧
    (get_directory_sizes path root).files.length = k ∧
    (∀ (j : Nat) (c : String × Node) (s : Nat), j < k → cs[j]? = some c →
      entry_size ⟨path ++ [c.1], c.2⟩ = .ok s →
      (get_directory_sizes path root).files[j]? = some ⟨c.1, s⟩) ∧
    ∀ i, k ≤ i → (get_directory_sizes path root).files[i]? = none := by
  have hfirst := scan_first_error (cs.map fun c => (⟨path ++ [c.1], c.2⟩ : directory_entry))
    k ⟨path ++ [name], n⟩ e (entries_get path cs k name n hchild) herr (fun j x hj hx => by
      rw [List.getElem?_map] at hx
      cases hc : cs[j]? with
      | none => rw [hc] at hx; cases hx
      | some c =>
        rw [hc] at hx
        simp only [Option.map_some', Option.some.injEq] at hx
        subst hx
        exact hbefore j c hj hc)
  have hall : get_directory_sizes path root =
      ⟨(scan ((cs.map fun c => (⟨path ++ [c.1], c.2⟩ : directory_entry)).take k) []).files,
        some e⟩ := by
    rw [get_directory_sizes_of_open path root cs hopen]
    exact hfirst.1
  have hlen : (get_directory_sizes path root).files.length = k := by
    rw [hall]
    exact hfirst.2.2
  refine ⟨by rw [hall], hlen, fun j c s hj hc hs => ?_, fun i hi => ?_⟩
  · exact (child_entry path root cs j c.1 c.2 s hopen hc hs).2.2
      (fun i x hi hx => hbefore i x (by omega) hx)
  · exact List.getElem?_eq_none (by omega)

/-- C5 (witness): the second child is a directory with an entry, one level down,
that cannot be stat-ed.  The file before it keeps its entry; the directory and
the file after it get none. -/
theorem error_ends_walk_witness :
    (get_directory_sizes ["root"] deep_fault_root).reported = some .io_error ∧
    (get_directory_sizes ["root"] deep_fault_root).files.length = 1 ∧
    (get_directory_sizes ["root"] deep_fault_root).files[0]? = some ⟨"a", 3⟩ ∧
    (get_directory_sizes ["root"] deep_fault_root).files[1]? = none ∧
    (get_directory_sizes ["root"] deep_fault_root).files[2]? = none :=
  have h := error_ends_walk ["root"] deep_fault_root
    [("a", .file 3),
      ("c", .dir .listable [("f", .file 7), ("x", .unstatable .io_error)]),
      ("b", .file 1)]
    1 "c" (.dir .listable [("f", .file 7), ("x", .unstatable .io_error)]) .io_error
    rfl rfl rfl
    (fun j c hj hc => by
      have hj0 : j = 0 := by omega
      subst hj0
      simp only [List.getElem?_cons_zero, Option.some.injEq] at hc
      subst hc
      exact ⟨3, rfl⟩)
  ⟨h.1, h.2.1, h.2.2.1 0 ("a", .file 3) 3 (by decide) rfl rfl, h.2.2.2 1 (by decide),
    h.2.2.2 2 (by decide)⟩

/-- C6 (counterexample).  A top-level symbolic link is not a leaf of size 0: a
link to a regular file of 5 bytes gets size 5, and a link to a directory holding
7 bytes gets size 7, so the target is measured and walked.  And a device that
comes after a child which cannot be stat-ed gets no entry. -/
theorem symlink_is_followed :
    get_directory_sizes ["root"] (.dir .listable [("l", .link (.file 5))]) =
      ⟨[⟨"l", 5⟩], none⟩ ∧
    get_directory_sizes ["root"]
        (.dir .listable [("l", .link (.dir .listable [("f", .file 7)]))]) =
      ⟨[⟨"l", 7⟩], none⟩ ∧
    get_directory_sizes ["root"] (.dir .listable [("a", .unstatable .io_error), ("dev", .special)]) =
      ⟨[], some .io_error⟩ :=
  ⟨by decide, by decide, by decide⟩

/-- C6 (amended).  For an immediate child whose status, read through symbolic
links, is neither a regular file nor a directory (a device, fifo or socket, a
removed entry, a dangling link or a link to such an object), the entry produced
for that child has size 0; the entry is there whenever no error is reported, and
whenever no child before it raised one.  A top-level symbolic link is measured
as the object it points to. -/
theorem leaf_entry_size_zero (path : Path) (root : Node) (cs : List (String × Node))
    (i : Nat) (name : String) (n : Node) (hopen : open_dir root = .ok cs)
    (hchild : cs[i]? = some (name, n))
    (hkind : status n = .ok .other ∨ status n = .ok .not_found) :
    (∀ f, (get_directory_sizes path root).files[i]? = some f → f = ⟨name, 0⟩) ∧
    ((get_directory_sizes path root).reported = none →
      (get_directory_sizes path root).files[i]? = some ⟨name, 0⟩) ∧
    ((∀ j c, j < i → cs[j]? = some c → ∃ s, entry_size ⟨path ++ [c.1], c.2⟩ = .ok s) →
      (get_directory_sizes path root).files[i]? = some ⟨name, 0⟩) ∧
    ∀ target, entry_size ⟨path ++ [name], .link target⟩ =
      entry_size ⟨path ++ [name], target⟩ := by
  have h := child_entry path root cs i name n 0 hopen hchild
    (entry_size_leaf (path ++ [name]) n hkind)
  exact ⟨h.1, h.2.1, h.2.2, fun target => entry_size_link _ target⟩

/-- C6 (witness): a device and a dangling link after a regular file. -/
theorem leaf_entry_size_zero_witness :
    (get_directory_sizes ["root"]
      (.dir .listable [("a", .file 3), ("dev", .special), ("l", .link .missing)])).files[2]? =
        some ⟨"l", 0⟩ :=
  (leaf_entry_size_zero ["root"]
    (.dir .listable [("a", .file 3), ("dev", .special), ("l", .link .missing)])
    [("a", .file 3), ("dev", .special), ("l", .link .missing)] 2 "l" (.link .missing)
    rfl rfl (Or.inr rfl)).2.1 (by decide)

/-- C7 (counterexample).  A child directory holding four regular files of 2^62
bytes each and one directory that refuses to be opened gets size 0, not the
sum 2^64 of the regular-file sizes in its readable portion.  A child directory
with one descendant whose status is refused with "permission denied" gets no
entry, and the error is raised.  And a child directory with one unreadable
descendant directory gets no entry when a child iterated before it cannot be
stat-ed. -/
theorem readable_sum_fails :
    (get_directory_sizes ["root"] (.dir .listable [("c", huge_partly_denied_dir)]) =
        ⟨[⟨"c", 0⟩], none⟩ ∧
      (readable_sizes huge_partly_denied_dir).sum = 2 ^ 64) ∧
    get_directory_sizes ["root"] (.dir .listable [("c", stat_denied_dir)]) =
      ⟨[], some .permission_denied⟩ ∧
    get_directory_sizes ["root"]
        (.dir .listable [("a", .unstatable .io_error), ("c", partly_denied_dir)]) =
      ⟨[], some .io_error⟩ :=
  ⟨⟨by decide, by decide⟩, by decide, by decide⟩

/-- C7 (amended).  For an immediate child directory whose only fault is
descendants that refuse to be opened with "permission denied", and when no child
iterated before it raised an error, `get_directory_sizes` produces an entry for
that child; its size is the sum of the regular-file sizes in the readable
portion of the child, modulo 2^64 (the sum itself whenever it is below 2^64).
What the unreadable directories hold contributes 0, and they cause no error. -/
theorem denied_descendant_skipped (path : Path) (root : Node) (cs : List (String × Node))
    (i : Nat) (name : String) (access : Access) (entries : List (String × Node))
    (hopen : open_dir root = .ok cs)
    (hchild : cs[i]? = some (name, .dir access entries))
    (hwalk : walkable (.dir access entries) = true)
    (hbefore : ∀ j c, j < i → cs[j]? = some c →
      ∃ s, entry_size ⟨path ++ [c.1], c.2⟩ = .ok s) :
    entry_size ⟨path ++ [name], .dir access entries⟩ =
      .ok ((readable_sizes (.dir access entries)).sum % UINTMAX_MOD) ∧
    (get_directory_sizes path root).files[i]? =
      some ⟨name, (readable_sizes (.dir access entries)).sum % UINTMAX_MOD⟩ ∧
    ((readable_sizes (.dir access entries)).sum < UINTMAX_MOD →
      (get_directory_sizes path root).files[i]? =
        some ⟨name, (readable_sizes (.dir access entries)).sum⟩) := by
  have hs := entry_size_walkable_dir (path ++ [name]) access entries hwalk
  have h := (child_entry path root cs i name (.dir access entries) _ hopen hchild hs).2.2
    hbefore
  refine ⟨hs, h, fun hlt => ?_⟩
  rw [h, Nat.mod_eq_of_lt hlt]

/-- C7 (witness): a child directory with 7 + 11 readable bytes and 5 bytes inside
a directory that refuses to be opened, after a regular file and before a child
that cannot be stat-ed. -/
theorem denied_descendant_skipped_witness :
    (get_directory_sizes ["root"]
      (.dir .listable [("a", .file 3), ("c", partly_denied_dir), ("z", .unstatable .io_error)])).files[1]? =
        some ⟨"c", 18⟩ :=
  (denied_descendant_skipped ["root"]
    (.dir .listable [("a", .file 3), ("c", partly_denied_dir), ("z", .unstatable .io_error)])
    [("a", .file 3), ("c", partly_denied_dir), ("z", .unstatable .io_error)] 1 "c" .listable
    [("f", .file 7), ("sub", .dir .listable [("g", .file 11)]),
      ("secret", .dir .denied [("h", .file 5)])]
    rfl rfl rfl
    (fun j c hj hc => by
      have hj0 : j = 0 := by omega
      subst hj0
      simp only [List.getElem?_cons_zero, Option.some.injEq] at hc
      subst hc
      exact ⟨3, rfl⟩)).2.2 (by decide)

/-- C8.  For every entry the print loop writes the line `<name> <<< <q> MB`
with `q = floor(size / 1048576)`, so `q * 1048576 <= size < (q + 1) * 1048576`;
and for the entries `a.txt` of 2097152 bytes and `b` of 1048576 bytes, in either
order, sort then print gives `a.txt <<< 2 MB` followed by `b <<< 1 MB`, as
printing does for any rearrangement of the two that is sorted with respect to
`FileInfo::operator<`. -/
theorem print_line_megabytes :
    (∀ files : List FileInfo, print_files files =
      files.map fun file => file.name ++ " <<< " ++ toString (file.size / 1048576) ++ " MB") ∧
    (∀ file : FileInfo, file.size / 1048576 * 1048576 ≤ file.size ∧
      file.size < (file.size / 1048576 + 1) * 1048576) ∧
    sort_and_print [⟨"a.txt", 2097152⟩, ⟨"b", 1048576⟩] = ["a.txt <<< 2 MB", "b <<< 1 MB"] ∧
    sort_and_print [⟨"b", 1048576⟩, ⟨"a.txt", 2097152⟩] = ["a.txt <<< 2 MB", "b <<< 1 MB"] ∧
    ∀ out : List FileInfo, out.Perm [⟨"a.txt", 2097152⟩, ⟨"b", 1048576⟩] →
      out.Pairwise (fun a b => FileInfo.lt b a = false) →
      print_files out = ["a.txt <<< 2 MB", "b <<< 1 MB"] := by
  refine ⟨fun files => rfl, fun file => ⟨?_, ?_⟩, by decide, by decide,
    fun out hperm hsorted => ?_⟩
  · omega
  · omega
  · obtain ⟨x, y, rfl⟩ := List.length_eq_two.1 hperm.length_eq
    have hx : x ∈ [(⟨"a.txt", 2097152⟩ : FileInfo), ⟨"b", 1048576⟩] :=
      hperm.subset (List.mem_cons_self _ _)
    have hb : (⟨"b", 1048576⟩ : FileInfo) ∈ [x, y] :=
      hperm.symm.subset (List.mem_cons_of_mem _ (List.mem_cons_self _ _))
    have ha : (⟨"a.txt", 2097152⟩ : FileInfo) ∈ [x, y] :=
      hperm.symm.subset (List.mem_cons_self _ _)
    have hxy : FileInfo.lt y x = false := by
      simpa using hsorted
    simp only [List.mem_cons, List.mem_singleton, List.not_mem_nil, or_false] at hx ha hb
    rcases hx with rfl | rfl
    · rcases hb with h | h
      · exact absurd h (by decide)
      · subst h
        decide
    · rcases ha with h | h
      · exact absurd h (by decide)
      · subst h
        exact absurd hxy (by decide)

/-- C8 (witness): the two entries of the example, smaller one first, as a
sorted rearrangement of themselves. -/
theorem print_line_megabytes_witness :
    print_files (std_sort [⟨"b", 1048576⟩, ⟨"a.txt", 2097152⟩]) =
      ["a.txt <<< 2 MB", "b <<< 1 MB"] :=
  print_line_megabytes.2.2.2.2 (std_sort [⟨"b", 1048576⟩, ⟨"a.txt", 2097152⟩])
    (by decide) (by decide)

/-- C9.  In the step model of `loading_animation`, one step per poll of
`loading_done`: the spinner index is below 4 after any sequence of polls; after
`k` polls that see the flag false the reporter has written `k` times the
carriage return, the label and one marker in brackets, the i-th marker (from 0)
being number `i mod 4` of `|`, `/`, `-`, `\`; and on the first poll that sees
the flag true it writes the done message after them and stops, whatever later
polls would see: no marker is written afterwards.  Five ticks followed by a
true poll and a false one write the four markers in turn, the first again, and
then the done message only. -/
theorem loading_animation_steps :
    (∀ polls : List Bool, (loading_animation polls).index < 4) ∧
    (∀ k : Nat, loading_animation (List.replicate k false) =
      ⟨k % 4,
        (List.range k).map (fun i =>
          "\r[계산 중... " ++ String.singleton (['|', '/', '-', '\\'].getD (i % 4) ' ') ++ "]"),
        false⟩) ∧
    (∀ (k : Nat) (later : List Bool),
      loading_animation (List.replicate k false ++ true :: later) =
        ⟨k % 4,
          (List.range k).map (fun i =>
            "\r[계산 중... " ++ String.singleton (['|', '/', '-', '\\'].getD (i % 4) ' ') ++
              "]") ++ ["\r[계산 완료!]   \n"],
          true⟩) ∧
    (∀ i : Nat, ['|', '/', '-', '\\'].getD (i % 4) ' ' =
      if i % 4 = 0 then '|' else if i % 4 = 1 then '/' else if i % 4 = 2 then '-' else '\\') ∧
    loading_animation [false, false, false, false, false, true, false] =
      ⟨1, ["\r[계산 중... |]", "\r[계산 중... /]", "\r[계산 중... -]", "\r[계산 중... \\]",
        "\r[계산 중... |]", "\r[계산 완료!]   \n"], true⟩ := by
  refine ⟨fun polls => foldl_step_index_lt polls _ (by decide), ticks, fun k later => ?_,
    fun i => ?_, by decide⟩
  · have h : loading_animation (List.replicate k false ++ true :: later) =
        later.foldl (fun s b => step b s)
          (step true (loading_animation (List.replicate k false))) := by
      simp [loading_animation, List.foldl_append]
    rw [h, ticks k, foldl_step_stopped]
    · rfl
    · rfl
  · have h4 : i % 4 < 4 := Nat.mod_lt _ (by decide)
    generalize i % 4 = r at h4
    match r, h4 with
    | 0, _ => rfl
    | 1, _ => rfl
    | 2, _ => rfl
    | 3, _ => rfl

/-- C10.  `get_directory_sizes` always returns, and on an error it returns the
entries made before the error: when opening the root raises, the result is
empty; when the first error is raised while the child at position `k` (from 0)
is examined or summed, the result is exactly what an error-free walk over the
`k` children before it returns, one entry for each of them and none for the
failing child or a later one.  In both cases the error is reported. -/
theorem error_keeps_earlier_entries (path : Path) (root : Node) :
    (∀ e, open_dir root = .error e → get_directory_sizes path root = ⟨[], some e⟩) ∧
    (∀ (cs : List (String × Node)) (k : Nat) (name : String) (n : Node) (e : Errc),
      open_dir root = .ok cs → cs[k]? = some (name, n) →
      entry_size ⟨path ++ [name], n⟩ = .error e →
      (∀ j c, j < k → cs[j]? = some c → ∃ s, entry_size ⟨path ++ [c.1], c.2⟩ = .ok s) →
      get_directory_sizes path root =
        ⟨(get_directory_sizes path (.dir .listable (cs.take k))).files, some e⟩ ∧
      (get_directory_sizes path (.dir .listable (cs.take k))).reported = none ∧
      (get_directory_sizes path root).files.length = k ∧
      (get_directory_sizes path root).files.map FileInfo.name = (cs.take k).map Prod.fst ∧
      ∀ j c, j < k → cs[j]? = some c →
        ∃ s, entry_size ⟨path ++ [c.1], c.2⟩ = .ok s ∧
          (get_directory_sizes path root).files[j]? = some ⟨c.1, s⟩) := by
  refine ⟨fun e he => get_directory_sizes_of_error path root e he,
    fun cs k name n e hopen hk herr hbefore => ?_⟩
  have hsub : get_directory_sizes path (.dir .listable (cs.take k)) =
      scan ((cs.map fun c => (⟨path ++ [c.1], c.2⟩ : directory_entry)).take k) [] := by
    rw [get_directory_sizes_of_open path (.dir .listable (cs.take k)) (cs.take k) rfl,
      List.map_take]
  have hfirst := scan_first_error (cs.map fun c => (⟨path ++ [c.1], c.2⟩ : directory_entry))
    k ⟨path ++ [name], n⟩ e (entries_get path cs k name n hk) herr (fun j x hj hx => by
      rw [List.getElem?_map] at hx
      cases hc : cs[j]? with
      | none => rw [hc] at hx; cases hx
      | some c =>
        rw [hc] at hx
        simp only [Option.map_some', Option.some.injEq] at hx
        subst hx
        exact hbefore j c hj hc)
  have hall : get_directory_sizes path root =
      ⟨(get_directory_sizes path (.dir .listable (cs.take k))).files, some e⟩ := by
    rw [hsub, get_directory_sizes_of_open path root cs hopen]
    exact hfirst.1
  have hlen : (get_directory_sizes path root).files.length = k := by
    rw [hall, hsub]
    exact hfirst.2.2
  refine ⟨hall, by rw [hsub]; exact hfirst.2.1, hlen, ?_, fun j c hj hc => ?_⟩
  · rw [names_take path root cs hopen, hlen, List.map_take]
  · obtain ⟨s, hs⟩ := hbefore j c hj hc
    refine ⟨s, hs, ?_⟩
    have h := (child_entry path root cs j c.1 c.2 s hopen hc hs).2.2
      (fun i x hi hx => hbefore i x (by omega) hx)
    exact h

/-- C10 (witness): the directory whose second child disappears keeps the entry
of the first child only. -/
theorem error_keeps_earlier_entries_witness :
    get_directory_sizes ["root"] vanishing_root =
      ⟨(get_directory_sizes ["root"] (.dir .listable [("a", .file 3)])).files,
        some .no_such_file⟩ :=
  ((error_keeps_earlier_entries ["root"] vanishing_root).2
    [("a", .file 3), ("gone", .vanished), ("b", .file 1)] 1 "gone" .vanished .no_such_file
    rfl rfl rfl
    (fun j c hj hc => by
      have hj0 : j = 0 := by omega
      subst hj0
      simp only [List.getElem?_cons_zero, Option.some.injEq] at hc
      subst hc
      exact ⟨3, rfl⟩)).1

end FolderSize
